import Mathlib

/-!
Verification of the cfs content-distribution core: a shallow embedding of
the pack codec, the tag resolver, the fetch/cache engine, the distribution
orchestrator (Sync / FetchAll / ExistsAll) and the filter collaborator,
together with theorems settling the specified properties.

Go strings and byte slices are modelled as `List Char`; byte streams of the
pack codec as `List Nat`.  Stateful pieces (the on-disk cache, remote HTTP)
are modelled by explicit state passing: the cache is a map from hash to
raw bytes, and the remote store is a function from URL to an HTTP result.
-/

abbrev Chars := List Char

/-- Modelled from the spec: `isHash` is not under src; the spec defines a
Hash as a lowercase hexadecimal string of 32 characters (128-bit digest,
the `md5` default declared by `LoadBucket`).  Character ranges are written
over code points: 0x30–0x39 are the digits, 0x61–0x66 are `a`–`f`. -/
def isHexLower (c : Char) : Bool :=
  (0x30 ≤ c.toNat && c.toNat ≤ 0x39) || (0x61 ≤ c.toNat && c.toNat ≤ 0x66)

def isHash (s : Chars) : Bool :=
  s.length == 32 && s.all isHexLower

/-! ## Pack codec

Modelled from the spec: the pack package implementation is not under src
(only `pack_test.go` is).  Per spec §4.5, `Encode` writes a format-version
marker, then the entry count, then each entry's `path` (length-prefixed),
`hash`, `pos`, `size` in fixed order; `Decode` fails if the version marker
is unrecognized or the stream is truncated mid-entry.  Strings are written
length-prefixed, characters as their code points, counts as plain numbers
in the `List Nat` stream. -/

namespace Pack

structure Entry where
  path : Chars
  hash : Chars
  pos : Nat
  size : Nat
deriving DecidableEq

def PackFileVersion : Nat := 1

structure PackFile where
  version : Nat
  entries : List Entry
deriving DecidableEq

def NewPackFile (es : List Entry) : PackFile :=
  ⟨PackFileVersion, es⟩

def encodeStr (s : Chars) : List Nat :=
  s.length :: s.map Char.toNat

def encodeEntry (e : Entry) : List Nat :=
  encodeStr e.path ++ encodeStr e.hash ++ [e.pos, e.size]

def Write (p : PackFile) : List Nat :=
  p.version :: p.entries.length :: (p.entries.map encodeEntry).flatten

def parseStr : List Nat → Option (Chars × List Nat)
  | [] => none
  | n :: rest =>
    if n ≤ rest.length then
      some ((rest.take n).map Char.ofNat, rest.drop n)
    else none

def parseEntry (s : List Nat) : Option (Entry × List Nat) :=
  match parseStr s with
  | none => none
  | some (path, s1) =>
    match parseStr s1 with
    | none => none
    | some (hash, s2) =>
      match s2 with
      | pos :: size :: s3 => some (⟨path, hash, pos, size⟩, s3)
      | _ => none

def parseEntries : Nat → List Nat → Option (List Entry × List Nat)
  | 0, s => some ([], s)
  | n + 1, s =>
    match parseEntry s with
    | none => none
    | some (e, s1) =>
      match parseEntries n s1 with
      | none => none
      | some (es, s2) => some (e :: es, s2)

def Parse (s : List Nat) : Option PackFile :=
  match s with
  | v :: n :: rest =>
    if v = PackFileVersion then
      match parseEntries n rest with
      | none => none
      | some (es, _) => some ⟨v, es⟩
    else none
  | _ => none

theorem parseStr_encodeStr (s : Chars) (t : List Nat) :
    parseStr (encodeStr s ++ t) = some (s, t) := by
  simp only [encodeStr, parseStr, List.cons_append]
  rw [if_pos (by simp)]
  have hlen : (s.map Char.toNat).length = s.length := List.length_map _ _
  rw [← hlen, List.take_left, List.drop_left]
  have hid : Char.ofNat ∘ Char.toNat = id := funext Char.ofNat_toNat
  rw [List.map_map, hid, List.map_id]

theorem parseEntry_encodeEntry (e : Entry) (t : List Nat) :
    parseEntry (encodeEntry e ++ t) = some (e, t) := by
  simp only [encodeEntry, List.append_assoc, List.cons_append]
  simp [parseEntry, parseStr_encodeStr]

theorem parseEntries_encode (es : List Entry) (t : List Nat) :
    parseEntries es.length ((es.map encodeEntry).flatten ++ t) = some (es, t) := by
  induction es generalizing t with
  | nil => simp [parseEntries]
  | cons e rest ih =>
    simp only [List.map_cons, List.flatten_cons, List.length_cons, List.append_assoc]
    simp [parseEntries, parseEntry_encodeEntry, ih]

/-- C1: decoding the bytes produced by encoding any sequence of pack
entries (zero-size entries and duplicate hashes included) yields the same
sequence, field for field, in the original order, under the current
format version. -/
theorem pack_roundtrip (entries : List Entry) :
    Parse (Write (NewPackFile entries)) = some ⟨PackFileVersion, entries⟩ := by
  have h := parseEntries_encode entries []
  rw [List.append_nil] at h
  simp [Write, NewPackFile, Parse, h]

end Pack

/-! ## Downloader data model

`Content`, `Bucket` and `ContentAttribute` are declared outside src (only
their uses in the downloader and the filter are under src); their fields
are modelled from the spec's Content Descriptor and Bucket Manifest and
from the field accesses in the source (`c.Path`, `c.Hash`, `c.Size`,
`c.Attr`, `b.Contents`, `b.Tag`, `b.HashType`). -/

/-- Modelled from the spec: per-entry instruction for the reversible
transform ("no transform" vs "decrypt with process key/IV"). -/
structure ContentAttribute where
  crypted : Bool
deriving DecidableEq

def DefaultContentAttribute : ContentAttribute := ⟨false⟩

structure Content where
  path : Chars
  hash : Chars
  size : Nat
  attr : ContentAttribute
deriving DecidableEq

/-- Bucket manifest; the Go `Contents` map is modelled as the list of its
entries in iteration order. -/
structure Bucket where
  hashType : Chars
  tag : Chars
  contents : List Content

inductive Err where
  | invalidHash (h : Chars)
  | notHash (v : Chars)
  | badStatus (st : Nat) (url : Chars)
  | transport (msg : Chars)
  | urlError (s : Chars)
  | transformErr (msg : Chars)
  | panicked
deriving DecidableEq

/-- Outcome of one HTTP request: a transport-level error, or a response
with a status code and a body. -/
inductive HttpResult where
  | transportErr (msg : Chars)
  | response (status : Nat) (body : Chars)
deriving DecidableEq

/-- The environment of the downloader: the remote store keyed by URL (GET
and HEAD separately), the process-wide key/IV, and the content transform.
The transform (`decode` in the source, not under src) is kept abstract:
any function of the raw bytes, key, IV and attribute. -/
structure Env where
  http : Chars → HttpResult
  head : Chars → HttpResult
  key : Chars
  iv : Chars
  transform : Chars → Chars → Chars → ContentAttribute → Except Err Chars

/-- The local cache (`GlobalDataCacheDir()`): a map from hash to the raw
bytes stored under that name, `none` when no cache entry exists. -/
abbrev Cache := Chars → Option Chars

/-- A URL reference character Go's `url.Parse` accepts: `url.Parse` fails
exactly on ASCII control characters (below 0x20, and 0x7f). -/
def validUrlChar (c : Char) : Bool :=
  0x20 ≤ c.toNat && c.toNat ≠ 0x7f

def validUrlRef (s : Chars) : Bool :=
  s.all validUrlChar

/-- The sharded remote data location `data/<hash[0:2]>/<hash[2:]>`. -/
def dataUrlStr (hash : Chars) : Chars :=
  "data/".toList ++ hash.take 2 ++ "/".toList ++ hash.drop 2

/-- Outcome of `Downloader.dataUrl`: Go slicing `hash[0:2]` panics when
the hash has fewer than 2 bytes; `BaseUrl.Parse` can return an error
(modelled via `validUrlRef`); otherwise the sharded URL. -/
inductive UrlOutcome where
  | sliceOutOfRange
  | parseFailed
  | ok (url : Chars)
deriving DecidableEq

def dataUrl (hash : Chars) : UrlOutcome :=
  if hash.length < 2 then .sliceOutOfRange
  else if validUrlRef (dataUrlStr hash) then .ok (dataUrlStr hash)
  else .parseFailed

/-- The `fetch` helper: GET the URL; a transport error or a status ≥ 400
is an error, otherwise the body is returned. -/
def fetchUrlData (env : Env) (url : Chars) : Except Err Chars :=
  match env.http url with
  | .transportErr m => .error (.transport m)
  | .response st body =>
    if 400 ≤ st then .error (.badStatus st url) else .ok body

/-- Result of one `Fetch` call: the returned value, the cache afterwards,
the list of URLs GET-requested, and counts of cache lookups and cache
writes. -/
structure FetchOut where
  result : Except Err Chars
  cache : Cache
  gets : List Chars
  cacheReads : Nat
  cacheWrites : Nat

/-- The engine `Downloader.Fetch`: reject non-hashes; on a cache hit transform the
cached raw bytes; on a miss build the data URL, GET it, write the raw
bytes to the cache (atomic in the source; a single map update here), then
transform.  The `sliceOutOfRange` arm is unreachable from `Fetch` because
`isHash` guarantees a 32-character hash; Go would panic there. -/
def Fetch (env : Env) (cache : Cache) (hash : Chars) (attr : ContentAttribute) : FetchOut :=
  if isHash hash = false then
    ⟨.error (.invalidHash hash), cache, [], 0, 0⟩
  else
    match cache hash with
    | some data => ⟨env.transform data env.key env.iv attr, cache, [], 1, 0⟩
    | none =>
      match dataUrl hash with
      | .sliceOutOfRange => ⟨.error .panicked, cache, [], 1, 0⟩
      | .parseFailed => ⟨.error (.urlError hash), cache, [], 1, 0⟩
      | .ok url =>
        match fetchUrlData env url with
        | .error e => ⟨.error e, cache, [url], 1, 0⟩
        | .ok data =>
          ⟨env.transform data env.key env.iv attr,
           fun h => if h = hash then some data else cache h, [url], 1, 1⟩

theorem isHexLower_validUrlChar (c : Char) (h : isHexLower c = true) :
    validUrlChar c = true := by
  simp only [isHexLower, Bool.or_eq_true, Bool.and_eq_true, decide_eq_true_eq] at h
  simp only [validUrlChar, Bool.and_eq_true, decide_eq_true_eq]
  omega

theorem isHash_length (h : Chars) (hh : isHash h = true) : h.length = 32 := by
  simp only [isHash, Bool.and_eq_true, beq_iff_eq] at hh
  exact hh.1

theorem dataUrl_of_isHash (h : Chars) (hh : isHash h = true) :
    dataUrl h = .ok (dataUrlStr h) := by
  have hlen := isHash_length h hh
  simp only [isHash, Bool.and_eq_true, beq_iff_eq, List.all_eq_true] at hh
  unfold dataUrl
  rw [if_neg (by omega)]
  rw [if_pos]
  unfold validUrlRef dataUrlStr
  simp only [List.all_append, Bool.and_eq_true, List.all_eq_true]
  refine ⟨⟨⟨by decide, ?_⟩, by decide⟩, ?_⟩
  · intro c hc
    exact isHexLower_validUrlChar c (hh.2 c (List.take_subset 2 h hc))
  · intro c hc
    exact isHexLower_validUrlChar c (hh.2 c (List.drop_subset 2 h hc))

/-! ## Tag resolution (`FetchTag` and the first phase of `LoadBucket`) -/

def tagUrl (tag : Chars) : Chars :=
  "tag/".toList ++ tag

/-- The resolver `Downloader.FetchTag`: parse `tag/<name>` against the base URL (an
invalid reference is an error, no request made), then `fetch` it.  The
second component lists the URLs requested. -/
def FetchTag (env : Env) (tag : Chars) : Except Err Chars × List Chars :=
  if validUrlRef (tagUrl tag) then (fetchUrlData env (tagUrl tag), [tagUrl tag])
  else (.error (.urlError tag), [])

/-- The tag-resolution phase of `Downloader.LoadBucket`: a location that
is already a hash is used unchanged; otherwise the tag is fetched and the
body must itself be a hash, else the error names the non-hash value. -/
def resolveLocation (env : Env) (location : Chars) : Except Err Chars × List Chars :=
  if isHash location then (.ok location, [])
  else
    match FetchTag env location with
    | (.error e, reqs) => (.error e, reqs)
    | (.ok body, reqs) =>
      if isHash body then (.ok body, reqs)
      else (.error (.notHash body), reqs)

/-! ## Sync -/

def joinPath (dir p : Chars) : Chars :=
  dir ++ "/".toList ++ p

/-- Result of `Sync`: the files written atomically (full path and bytes,
in order), the cache afterwards, the URLs GET-requested, and the error
that aborted the loop, if any. -/
structure SyncOut where
  files : List (Chars × Chars)
  cache : Cache
  gets : List Chars
  err : Option Err

/-- The loop of `Downloader.Sync`: sequential; an entry of size 0 is
written as an empty file without any `Fetch` call; otherwise the bytes
come from `Fetch`, and the first error aborts the loop (files already
written stay).  `MkdirAll` and the atomic write are modelled as
succeeding. -/
def syncGo (env : Env) (dir : Chars) :
    List Content → Cache → List (Chars × Chars) → List Chars → SyncOut
  | [], cache, files, gets => ⟨files, cache, gets, none⟩
  | c :: rest, cache, files, gets =>
    if 0 < c.size then
      let fo := Fetch env cache c.hash c.attr
      match fo.result with
      | .error e => ⟨files, fo.cache, gets ++ fo.gets, some e⟩
      | .ok data =>
        syncGo env dir rest fo.cache (files ++ [(joinPath dir c.path, data)]) (gets ++ fo.gets)
    else
      syncGo env dir rest cache (files ++ [(joinPath dir c.path, [])]) gets

def Sync (env : Env) (cache : Cache) (b : Bucket) (dir : Chars) : SyncOut :=
  syncGo env dir b.contents cache [] []

/-! ## FetchAll -/

def RETRY_LIMIT : Nat := 3

/-- The retry loop of `FetchAll` for one entry, over the stream of
outcomes of successive `Fetch` calls (`f i` is the error of the i-th
call, `none` for success).  `remaining` mirrors `RETRY_LIMIT - retryCount`:
on failure with retries left the loop continues, otherwise it returns the
error.  The second component counts the `Fetch` calls made. -/
def retryFetchGo (f : Nat → Option Err) : Nat → Nat → Option Err × Nat
  | remaining, attempt =>
    match f attempt with
    | none => (none, attempt + 1)
    | some e =>
      match remaining with
      | 0 => (some e, attempt + 1)
      | r + 1 => retryFetchGo f r (attempt + 1)

def retryFetch (f : Nat → Option Err) : Option Err × Nat :=
  retryFetchGo f RETRY_LIMIT 0

/-- Result of one `FetchAll` task: the error it returns to the group, the
number of `Fetch` calls it made, and the hash of the empty cache entry it
created via `os.Create`, if any. -/
structure TaskResult where
  err : Option Err
  attempts : Nat
  created : Option Chars
deriving DecidableEq

/-- One task body of `FetchAll`: a task that observes cancellation first
returns success without doing anything; a zero-size entry creates an
empty cache entry named by its hash and returns success without any
`Fetch`; otherwise the retry loop runs. -/
def fetchAllTask (cancelled : Bool) (f : Nat → Option Err) (c : Content) : TaskResult :=
  if cancelled then ⟨none, 0, none⟩
  else if c.size = 0 then ⟨none, 0, some c.hash⟩
  else
    let r := retryFetch f
    ⟨r.1, r.2, none⟩

def firstTaskErr : List (Option Err) → Option Err
  | [] => none
  | none :: rest => firstTaskErr rest
  | some e :: _ => some e

/-- Running `FetchAll` over a schedule: each entry comes with its cancellation
flag (whether it observed `ctx.Done()` at task start) and its stream of
`Fetch` outcomes; the result of `eg.Wait()` is the first error among the
task results. -/
def FetchAllRun (tasks : List (Bool × ((Nat → Option Err) × Content))) : Option Err :=
  firstTaskErr (tasks.map (fun t => (fetchAllTask t.1 t.2.1 t.2.2).err))

/-! ## ExistsAll -/

/-- What one `ExistsAll` worker does with one entry: `dataUrl` panics on a
short hash (Go slice out of range) and the worker panics explicitly on a
`dataUrl` error; a HEAD transport error records `false`; otherwise the
entry records whether the status is 200. -/
inductive WorkerOutcome where
  | panicked
  | value (b : Bool)
deriving DecidableEq

def existsCheck (env : Env) (c : Content) : WorkerOutcome :=
  match dataUrl c.hash with
  | .sliceOutOfRange => .panicked
  | .parseFailed => .panicked
  | .ok url =>
    match env.head url with
    | .transportErr _ => .value false
    | .response st _ => .value (st == 200)

/-- The result of `Downloader.ExistsAll`: the recorded (path, bool) pairs, or `none`
when a worker panic aborts the process (an unrecovered panic in a Go
goroutine crashes the whole program). -/
def existsAllGo (env : Env) : List Content → Option (List (Chars × Bool))
  | [] => some []
  | c :: rest =>
    match existsCheck env c with
    | .panicked => none
    | .value v =>
      match existsAllGo env rest with
      | none => none
      | some m => some ((c.path, v) :: m)

def ExistsAll (env : Env) (b : Bucket) : Option (List (Chars × Bool)) :=
  existsAllGo env b.contents

/-- The boolean an `ExistsAll` worker records for an entry whose data URL
was built successfully. -/
def headBool (env : Env) (c : Content) : Bool :=
  match env.head (dataUrlStr c.hash) with
  | .transportErr _ => false
  | .response st _ => st == 200

/-! ## Filter collaborator (`cmd/cfs/filter.go`)

The subprocess run by `runFilter` is abstracted as the list `survivors`
of paths it printed back; `filterBucket` and `filterPackFile` keep the
entries whose path is a member of that list. -/

def filterBucket (cmd : Chars) (survivors : List Chars) (b : Bucket) : Bucket :=
  if cmd = [] then b
  else
    { hashType := "md5".toList
      contents := b.contents.filter (fun e => survivors.contains e.path)
      tag := b.tag }

def filterPackFile (cmd : Chars) (survivors : List Chars) (p : Pack.PackFile) : Pack.PackFile :=
  if cmd = [] then p
  else
    { version := Pack.PackFileVersion
      entries := p.entries.filter (fun e => survivors.contains e.path) }

/-! ## A concrete environment for witnesses -/

def testEnv : Env :=
  { http := fun _ => .response 200 "body".toList
    head := fun _ => .response 200 []
    key := []
    iv := []
    transform := fun data _ _ _ => .ok data }

def testHash : Chars := "0123456789abcdef0123456789abcdef".toList

def emptyCache : Cache := fun _ => none

/-! ## Claims -/

/-- C2: a `FetchAll` entry whose fetch fails exactly 3 times and succeeds
on the 4th call completes successfully after exactly 4 `Fetch` calls (no
5th attempt); an entry failing all 4 attempts makes its task return the
final error after exactly 4 calls, `FetchAll` returns that error, and a
task that observed cancellation returns success with no `Fetch` call. -/
theorem fetchAll_retry_policy (c : Content) (hsz : 0 < c.size)
    (f g : Nat → Option Err) (e0 e1 e2 d0 d1 d2 d3 : Err)
    (hf0 : f 0 = some e0) (hf1 : f 1 = some e1) (hf2 : f 2 = some e2)
    (hf3 : f 3 = none)
    (hg0 : g 0 = some d0) (hg1 : g 1 = some d1) (hg2 : g 2 = some d2)
    (hg3 : g 3 = some d3)
    (siblings : List Content) :
    fetchAllTask false f c = ⟨none, 4, none⟩ ∧
    fetchAllTask false g c = ⟨some d3, 4, none⟩ ∧
    FetchAllRun ((false, g, c) :: siblings.map (fun s => (true, g, s))) = some d3 ∧
    (∀ s : Content, fetchAllTask true g s = ⟨none, 0, none⟩) := by
  have hne : ¬ c.size = 0 := by omega
  have hfres : retryFetch f = (none, 4) := by
    simp [retryFetch, RETRY_LIMIT, retryFetchGo, hf0, hf1, hf2, hf3]
  have hgres : retryFetch g = (some d3, 4) := by
    simp [retryFetch, RETRY_LIMIT, retryFetchGo, hg0, hg1, hg2, hg3]
  refine ⟨?_, ?_, ?_, ?_⟩
  · simp [fetchAllTask, hne, hfres]
  · simp [fetchAllTask, hne, hgres]
  · simp [FetchAllRun, fetchAllTask, hne, hgres, firstTaskErr]
  · intro s
    simp [fetchAllTask]

theorem fetchAll_retry_policy_witness :
    fetchAllTask false (fun i => if i < 3 then some .panicked else none)
        ⟨"p".toList, "h".toList, 5, ⟨false⟩⟩ = ⟨none, 4, none⟩ ∧
    FetchAllRun [(false, fun _ => some (.transport "e".toList),
        ⟨"p".toList, "h".toList, 5, ⟨false⟩⟩)] = some (.transport "e".toList) := by
  have h := fetchAll_retry_policy ⟨"p".toList, "h".toList, 5, ⟨false⟩⟩ (by decide)
    (fun i => if i < 3 then some .panicked else none)
    (fun _ => some (.transport "e".toList))
    .panicked .panicked .panicked
    (.transport "e".toList) (.transport "e".toList) (.transport "e".toList)
    (.transport "e".toList)
    rfl rfl rfl rfl rfl rfl rfl rfl []
  exact ⟨h.1, h.2.2.1⟩

/-- C4: an entry of size 0 makes `Sync` write a zero-length file at the
entry's target path with no remote GET and no cache change, and makes a
`FetchAll` task create an empty cache entry named by the entry's hash
with no `Fetch` call at all. -/
theorem zero_size_entries (env : Env) (cache : Cache) (dir : Chars) (c : Content)
    (hc : c.size = 0) (rest : List Content) (files : List (Chars × Chars))
    (gets : List Chars) (f : Nat → Option Err) :
    syncGo env dir (c :: rest) cache files gets
      = syncGo env dir rest cache (files ++ [(joinPath dir c.path, [])]) gets ∧
    fetchAllTask false f c = ⟨none, 0, some c.hash⟩ := by
  constructor
  · simp [syncGo, hc]
  · simp [fetchAllTask, hc]

theorem zero_size_entries_witness :
    syncGo testEnv "d".toList [⟨"a".toList, testHash, 0, ⟨false⟩⟩] emptyCache [] []
      = syncGo testEnv "d".toList [] emptyCache
          [(joinPath "d".toList "a".toList, [])] [] ∧
    fetchAllTask false (fun _ => none) ⟨"a".toList, testHash, 0, ⟨false⟩⟩
      = ⟨none, 0, some testHash⟩ :=
  zero_size_entries testEnv emptyCache "d".toList ⟨"a".toList, testHash, 0, ⟨false⟩⟩
    rfl [] [] [] (fun _ => none)

/-- C6: `Fetch` on a string that is not a hash returns the invalid-hash
error immediately: no cache lookup, no GET request, no cache write, and
the cache is unchanged. -/
theorem fetch_invalid_hash (env : Env) (cache : Cache) (h : Chars)
    (attr : ContentAttribute) (hh : isHash h = false) :
    Fetch env cache h attr = ⟨.error (.invalidHash h), cache, [], 0, 0⟩ := by
  simp [Fetch, hh]

theorem fetch_invalid_hash_witness :
    Fetch testEnv emptyCache "zz".toList DefaultContentAttribute
      = ⟨.error (.invalidHash "zz".toList), emptyCache, [], 0, 0⟩ :=
  fetch_invalid_hash testEnv emptyCache "zz".toList DefaultContentAttribute (by decide)

/-- A `Fetch` whose hash is valid and already cached transforms the
cached raw bytes: no GET, no cache change, one cache read. -/
theorem fetch_hit (env : Env) (cache : Cache) (h : Chars)
    (attr : ContentAttribute) (data : Chars)
    (hh : isHash h = true) (hdata : cache h = some data) :
    Fetch env cache h attr
      = ⟨env.transform data env.key env.iv attr, cache, [], 1, 0⟩ := by
  simp [Fetch, hh, hdata]

/-- C3: with a cold cache and a successful remote GET, the first `Fetch`
performs exactly one GET (at the sharded data URL) and writes the raw
bytes under the hash; the second `Fetch` performs no GET, reads the cache
entry written by the first, and returns the same transformed result. -/
theorem fetch_cache_once (env : Env) (cache : Cache) (h : Chars)
    (attr : ContentAttribute) (data : Chars)
    (hh : isHash h = true) (hcold : cache h = none)
    (hremote : fetchUrlData env (dataUrlStr h) = .ok data) :
    (Fetch env cache h attr).gets = [dataUrlStr h] ∧
    (Fetch env (Fetch env cache h attr).cache h attr).gets = [] ∧
    (Fetch env cache h attr).cache h = some data ∧
    (Fetch env (Fetch env cache h attr).cache h attr).cacheReads = 1 ∧
    (Fetch env (Fetch env cache h attr).cache h attr).result
      = (Fetch env cache h attr).result := by
  have hurl := dataUrl_of_isHash h hh
  have h1 : Fetch env cache h attr =
      ⟨env.transform data env.key env.iv attr,
       fun x => if x = h then some data else cache x, [dataUrlStr h], 1, 1⟩ := by
    simp [Fetch, hh, hcold, hurl, hremote]
  have h2 := fetch_hit env (fun x => if x = h then some data else cache x) h attr data
    hh (by simp)
  refine ⟨?_, ?_, ?_, ?_, ?_⟩
  · rw [h1]
  · rw [h1]; exact congrArg FetchOut.gets h2
  · rw [h1]; simp
  · rw [h1]; exact congrArg FetchOut.cacheReads h2
  · rw [h1]; exact (congrArg FetchOut.result h2).trans rfl

theorem fetch_cache_once_witness :
    (Fetch testEnv emptyCache testHash DefaultContentAttribute).gets
      = [dataUrlStr testHash] ∧
    (Fetch testEnv (Fetch testEnv emptyCache testHash DefaultContentAttribute).cache
        testHash DefaultContentAttribute).gets = [] ∧
    (Fetch testEnv emptyCache testHash DefaultContentAttribute).cache testHash
      = some "body".toList ∧
    (Fetch testEnv (Fetch testEnv emptyCache testHash DefaultContentAttribute).cache
        testHash DefaultContentAttribute).cacheReads = 1 ∧
    (Fetch testEnv (Fetch testEnv emptyCache testHash DefaultContentAttribute).cache
        testHash DefaultContentAttribute).result
      = (Fetch testEnv emptyCache testHash DefaultContentAttribute).result :=
  fetch_cache_once testEnv emptyCache testHash DefaultContentAttribute "body".toList
    (by decide) rfl rfl

/-- C5: a location that already satisfies the hash format is used
unchanged with no tag lookup; otherwise (for a location that parses as a
URL reference) exactly one lookup at `tag/<name>` is made, and a response
body that is not a hash fails with the error naming that value. -/
theorem tag_resolution (env : Env) (loc : Chars) :
    (isHash loc = true → resolveLocation env loc = (.ok loc, [])) ∧
    (isHash loc = false → validUrlRef (tagUrl loc) = true →
      (resolveLocation env loc).2 = [tagUrl loc] ∧
      (∀ body, fetchUrlData env (tagUrl loc) = .ok body → isHash body = false →
        (resolveLocation env loc).1 = .error (.notHash body))) := by
  constructor
  · intro hh
    simp [resolveLocation, hh]
  · intro hno hurl
    constructor
    · cases heq : fetchUrlData env (tagUrl loc) with
      | error e => simp [resolveLocation, hno, FetchTag, hurl, heq]
      | ok body =>
        by_cases hb : isHash body <;>
          simp [resolveLocation, hno, FetchTag, hurl, heq, hb]
    · intro body hbody hnb
      simp [resolveLocation, hno, FetchTag, hurl, hbody, hnb]

theorem tag_resolution_witness :
    resolveLocation testEnv testHash = (.ok testHash, []) ∧
    (resolveLocation testEnv "latest".toList).2 = [tagUrl "latest".toList] ∧
    (resolveLocation testEnv "latest".toList).1 = .error (.notHash "body".toList) := by
  have h1 := (tag_resolution testEnv testHash).1 (by decide)
  have h2 := (tag_resolution testEnv "latest".toList).2 (by decide) (by decide)
  exact ⟨h1, h2.1, h2.2 "body".toList rfl (by decide)⟩

/-- C7: with a valid hash and a cold cache, `Fetch` GETs exactly the
sharded location `data/<h[0:2]>/<h[2:]>`; a transport error or a status
≥ 400 fails with the corresponding error leaving the cache unwritten; on
success the raw response bytes are stored under the hash (before the
transform) and the transform of those raw bytes is returned. -/
theorem fetch_cold_miss (env : Env) (cache : Cache) (h : Chars)
    (attr : ContentAttribute) (hh : isHash h = true) (hcold : cache h = none) :
    (Fetch env cache h attr).gets = [dataUrlStr h] ∧
    dataUrlStr h = "data/".toList ++ h.take 2 ++ "/".toList ++ h.drop 2 ∧
    (∀ m, env.http (dataUrlStr h) = .transportErr m →
      (Fetch env cache h attr).result = .error (.transport m) ∧
      (Fetch env cache h attr).cache = cache ∧
      (Fetch env cache h attr).cacheWrites = 0) ∧
    (∀ st body, env.http (dataUrlStr h) = .response st body → 400 ≤ st →
      (Fetch env cache h attr).result = .error (.badStatus st (dataUrlStr h)) ∧
      (Fetch env cache h attr).cache = cache ∧
      (Fetch env cache h attr).cacheWrites = 0) ∧
    (∀ st body, env.http (dataUrlStr h) = .response st body → st < 400 →
      (Fetch env cache h attr).cache h = some body ∧
      (Fetch env cache h attr).result = env.transform body env.key env.iv attr) := by
  have hurl := dataUrl_of_isHash h hh
  refine ⟨?_, rfl, ?_, ?_, ?_⟩
  · cases heq : env.http (dataUrlStr h) with
    | transportErr m => simp [Fetch, hh, hcold, hurl, fetchUrlData, heq]
    | response st body =>
      by_cases hst : 400 ≤ st <;>
        simp [Fetch, hh, hcold, hurl, fetchUrlData, heq, hst]
  · intro m heq
    simp [Fetch, hh, hcold, hurl, fetchUrlData, heq]
  · intro st body heq hst
    simp [Fetch, hh, hcold, hurl, fetchUrlData, heq, hst]
  · intro st body heq hst
    have hlt : ¬ 400 ≤ st := by omega
    simp [Fetch, hh, hcold, hurl, fetchUrlData, heq, hlt]

theorem fetch_cold_miss_witness :
    (Fetch testEnv emptyCache testHash DefaultContentAttribute).gets
      = [dataUrlStr testHash] ∧
    (Fetch testEnv emptyCache testHash DefaultContentAttribute).cache testHash
      = some "body".toList ∧
    (Fetch testEnv emptyCache testHash DefaultContentAttribute).result
      = testEnv.transform "body".toList testEnv.key testEnv.iv DefaultContentAttribute := by
  have h := fetch_cold_miss testEnv emptyCache testHash DefaultContentAttribute
    (by decide) rfl
  have hs := h.2.2.2.2 200 "body".toList rfl (by decide)
  exact ⟨h.1, hs.1, hs.2⟩

theorem existsCheck_value (env : Env) (c : Content)
    (hok : dataUrl c.hash = .ok (dataUrlStr c.hash)) :
    existsCheck env c = .value (headBool env c) := by
  cases hh : env.head (dataUrlStr c.hash) <;>
    simp [existsCheck, headBool, hok, hh]

theorem existsAllGo_ok (env : Env) (l : List Content)
    (hok : ∀ c ∈ l, dataUrl c.hash = .ok (dataUrlStr c.hash)) :
    existsAllGo env l = some (l.map (fun c => (c.path, headBool env c))) := by
  induction l with
  | nil => rfl
  | cons a rest ih =>
    rw [existsAllGo, existsCheck_value env a (hok a (by simp))]
    simp [ih (fun c hc => hok c (by simp [hc]))]

/-- C8 counterexample: the claim quantifies over every bucket, but on a
bucket holding an entry whose hash is the single character `x` the worker
panics inside `dataUrl` (slice out of range), so `ExistsAll` aborts the
process (`none`) instead of returning a mapping with an entry for that
path. -/
theorem existsAll_short_hash_aborts :
    ExistsAll testEnv ⟨"md5".toList, [], [⟨"a".toList, "x".toList, 1, ⟨false⟩⟩]⟩
      = none := by
  decide

/-- C8 (amended): for every bucket all of whose entries' hashes build
their data URL without panicking, `ExistsAll` returns a mapping with an
entry for every path, recording `false` on a HEAD transport error,
`true` exactly on status 200, and propagating no per-item error. -/
theorem existsAll_records_every_path (env : Env) (b : Bucket)
    (hok : ∀ c ∈ b.contents, dataUrl c.hash = .ok (dataUrlStr c.hash)) :
    ExistsAll env b = some (b.contents.map (fun c => (c.path, headBool env c))) ∧
    (∀ c : Content,
      (∀ m, env.head (dataUrlStr c.hash) = .transportErr m → headBool env c = false) ∧
      (∀ st body, env.head (dataUrlStr c.hash) = .response st body →
        headBool env c = (st == 200))) := by
  refine ⟨existsAllGo_ok env b.contents hok, ?_⟩
  intro c
  constructor
  · intro m hm
    simp [headBool, hm]
  · intro st body hst
    simp [headBool, hst]

theorem existsAll_records_every_path_witness :
    ExistsAll testEnv ⟨"md5".toList, [], [⟨"a".toList, testHash, 1, ⟨false⟩⟩]⟩
      = some [("a".toList,
          headBool testEnv ⟨"a".toList, testHash, 1, ⟨false⟩⟩)] :=
  (existsAll_records_every_path testEnv
    ⟨"md5".toList, [], [⟨"a".toList, testHash, 1, ⟨false⟩⟩]⟩
    (fun c hc => by
      have : c = ⟨"a".toList, testHash, 1, ⟨false⟩⟩ := by simpa using hc
      rw [this]
      exact dataUrl_of_isHash testHash (by decide))).1

theorem existsAllGo_panicked (env : Env) (l : List Content) (c : Content)
    (hmem : c ∈ l) (hp : existsCheck env c = .panicked) :
    existsAllGo env l = none := by
  induction l with
  | nil => cases hmem
  | cons a rest ih =>
    rcases List.mem_cons.mp hmem with hca | hcr
    · rw [existsAllGo, ← hca, hp]
    · rw [existsAllGo]
      cases hx : existsCheck env a with
      | panicked => rfl
      | value v => rw [ih hcr]

/-- C10: `ExistsAll` builds each data URL without validating the hash:
an entry whose hash has fewer than 2 characters makes the worker panic
in the `hash[0:2]` slice, and a `dataUrl` error makes the worker panic
explicitly — either way `ExistsAll` aborts (returns no mapping) instead
of recording `false` for that path. -/
theorem existsAll_unvalidated_hash (env : Env) (b : Bucket) (c : Content)
    (hmem : c ∈ b.contents) :
    (c.hash.length < 2 →
      existsCheck env c = .panicked ∧ ExistsAll env b = none) ∧
    (dataUrl c.hash = .parseFailed →
      existsCheck env c = .panicked ∧ ExistsAll env b = none) := by
  constructor
  · intro hlen
    have hp : existsCheck env c = .panicked := by
      unfold existsCheck dataUrl
      rw [if_pos hlen]
    exact ⟨hp, existsAllGo_panicked env b.contents c hmem hp⟩
  · intro hparse
    have hp : existsCheck env c = .panicked := by
      unfold existsCheck
      rw [hparse]
    exact ⟨hp, existsAllGo_panicked env b.contents c hmem hp⟩

theorem existsAll_unvalidated_hash_witness :
    existsCheck testEnv ⟨"b".toList, "x".toList, 1, ⟨false⟩⟩ = .panicked ∧
    ExistsAll testEnv ⟨"md5".toList, [], [⟨"b".toList, "x".toList, 1, ⟨false⟩⟩]⟩
      = none :=
  (existsAll_unvalidated_hash testEnv
    ⟨"md5".toList, [], [⟨"b".toList, "x".toList, 1, ⟨false⟩⟩]⟩
    ⟨"b".toList, "x".toList, 1, ⟨false⟩⟩ (by simp)).1 (by decide)

/-- C9 counterexample: `filterPackFile` stamps the current format version
on its output instead of copying the input's: a pack file carrying
version 2 comes back with version 1, so the filtered pack file's version
differs from the original's. -/
theorem filter_version_not_preserved :
    (filterPackFile "f".toList [] ⟨2, []⟩).version
      ≠ (Pack.PackFile.mk 2 []).version := by
  decide

/-- C9 (amended): with a non-empty command, filtering preserves the
bucket's tag, and the filtered pack file's version is the current
`PackFileVersion` — hence equal to the original's exactly when the
original is at the current version. -/
theorem filter_preserves_tag_and_version (cmd : Chars) (survivors : List Chars)
    (b : Bucket) (p : Pack.PackFile) (hcmd : cmd ≠ []) :
    (filterBucket cmd survivors b).tag = b.tag ∧
    (filterPackFile cmd survivors p).version = Pack.PackFileVersion ∧
    (p.version = Pack.PackFileVersion →
      (filterPackFile cmd survivors p).version = p.version) := by
  refine ⟨by simp [filterBucket, hcmd], by simp [filterPackFile, hcmd], ?_⟩
  intro hv
  simp [filterPackFile, hcmd, hv]

theorem filter_preserves_tag_and_version_witness :
    (filterBucket "f".toList [] ⟨"md5".toList, "v1".toList, []⟩).tag = "v1".toList ∧
    (filterPackFile "f".toList [] ⟨Pack.PackFileVersion, []⟩).version
      = Pack.PackFileVersion := by
  have h := filter_preserves_tag_and_version "f".toList []
    ⟨"md5".toList, "v1".toList, []⟩ ⟨Pack.PackFileVersion, []⟩ (by decide)
  exact ⟨h.1, h.2.1⟩
